import Mathlib

/-
Verification of mongo-backups (mongo-backups.py and query-mongo-backups.py).

The development below is a shallow embedding of the two Python programs.
Pure fragments (tag construction, tag decoding, the rsync statistics parser,
the block-device arbitration functions) become Lean functions over the data
they read; the effectful `main` of mongo-backups.py becomes a function from an
explicit environment (the volumes returned by describe_volumes, the /dev
snapshots, which external calls fail) to a result plus a trace of the external
effects it performed.  Machine behaviour relevant to control flow is modelled
exactly: Python exceptions (IndexError, ValueError, AttributeError, NameError,
provider errors) become explicit error values, `sys.exit(None)` becomes exit
status 0, and loops are unfolded with explicit fuel so that non-termination is
observable.
-/

set_option maxHeartbeats 1000000

/-- A key/value tag attached to a cloud resource: one element of the `Tags`
lists exchanged with the provider API. -/
structure Tag where
  key : String
  value : String
  deriving DecidableEq, Repr

/-- Embedding of `tag_search` (query-mongo-backups.py lines 12-18): filter the
tag list down to entries whose Key equals `item` and return the first Value;
the Python function returns the empty list when nothing matches, modelled here
as `none`. -/
def tag_search (item : String) (tags : List Tag) : Option String :=
  match tags.filter (fun t => t.key == item) with
  | [] => none
  | t :: _ => some t.value

/-- The `__VERSION__` constant of mongo-backups.py. -/
def mongo_backups_version : String := "0.1"

/-- Does `cs` begin with the characters `p`?  Structural version of
`String.startsWith` restricted to the plain ASCII patterns the two programs
use (a Python fnmatch `xvd*` / `str.startswith` test). -/
def begins_with : List Char → List Char → Bool
  | [], _ => true
  | _ :: _, [] => false
  | p :: ps, c :: cs => p = c && begins_with ps cs

/-- Code-point lexicographic comparison of character lists: the order Python
uses to compare and sort str values. -/
def chars_le : List Char → List Char → Bool
  | [], _ => true
  | _ :: _, [] => false
  | a :: as, b :: bs => if a = b then chars_le as bs else decide (a.toNat < b.toNat)

/-- Python's `<=` on str values. -/
def str_le (a b : String) : Bool := chars_le a.data b.data

/-- Embedding of the tag list built by `MongoBackups.ebs_create_snapshot`
(mongo-backups.py lines 274-310): eight fixed identity tags followed by the
rsync statistics tags accumulated in `stats['rsync_stats']`. -/
def snapshot_tags (instance_id mongo_name date_started date_finished : String)
    (rsync_stats : List Tag) : List Tag :=
  let name := "MongoBackups-" ++ mongo_name ++ "-" ++ instance_id
  [⟨"InstanceId", instance_id⟩, ⟨"Name", name⟩, ⟨"Description", name⟩,
   ⟨"MongoName", mongo_name⟩, ⟨"MongoBackups", "True"⟩,
   ⟨"DateStarted", date_started⟩, ⟨"DateFinished", date_finished⟩,
   ⟨"MongoBackupsVersion", mongo_backups_version⟩] ++ rsync_stats

/-- Python dict assignment `d[k] = v` on an association list: overwrite the
binding of `k` if present, otherwise append a new binding at the end
(dict insertion order). -/
def dict_insert {β : Type} (k : String) (v : β) :
    List (String × β) → List (String × β)
  | [] => [(k, v)]
  | (k', v') :: rest =>
    if k' = k then (k', v) :: rest else (k', v') :: dict_insert k v rest

/-- The structured record `all_snapshots` builds for one snapshot: the fixed
fields read from the snapshot itself, the four identity tags looked up with
`tag_search`, and the dict of tags whose key starts with `rsync_`. -/
structure DecodedSnapshot where
  description : String
  encrypted : Bool
  progress : String
  snapshot_id : String
  date_started : Option String
  date_finished : Option String
  mongo_name : Option String
  instance_id : Option String
  rsync_stats : List (String × String)
  deriving DecidableEq, Repr

/-- A snapshot as returned by `describe_snapshots`, restricted to the fields
`all_snapshots` reads; `start_time` carries the ISO-8601 text that
`start_time.isoformat()` produces. -/
structure SnapRecord where
  description : String
  encrypted : Bool
  progress : String
  snapshot_id : String
  start_time : String
  tags : List Tag
  deriving DecidableEq, Repr

/-- The per-snapshot body of `QueryMongoBackups.all_snapshots`
(query-mongo-backups.py lines 71-97). -/
def decode_snapshot (s : SnapRecord) : DecodedSnapshot :=
  { description := s.description
    encrypted := s.encrypted
    progress := s.progress
    snapshot_id := s.snapshot_id
    date_started := tag_search "DateStarted" s.tags
    date_finished := tag_search "DateFinished" s.tags
    mongo_name := tag_search "MongoName" s.tags
    instance_id := tag_search "InstanceId" s.tags
    rsync_stats :=
      (s.tags.filter (fun t => begins_with "rsync_".data t.key.data)).foldl
        (fun d t => dict_insert t.key t.value d) [] }

/-- Insertion into a list sorted by a String key; used to model Python's
`sorted`. -/
def sort_insert {α : Type} (key : α → String) (x : α) : List α → List α
  | [] => [x]
  | y :: ys =>
    if str_le (key x) (key y) then x :: y :: ys else y :: sort_insert key x ys

/-- Sorting by a String key in ascending order; used to model Python's
`sorted` (all uses in the two programs sort lists with pairwise-distinct keys,
so stability is immaterial). -/
def sort_by_key {α : Type} (key : α → String) : List α → List α
  | [] => []
  | x :: xs => sort_insert key x (sort_by_key key xs)

/-- The truncation loop at the end of `all_snapshots` (query-mongo-backups.py
lines 99-104): walk the sorted items and stop as soon as the length of the
accumulated dict equals `limit`.  Python compares with `==`, so a negative
limit never stops the loop. -/
def take_until_limit {α : Type} (limit : Int) : List α → Nat → List α
  | [], _ => []
  | x :: xs, n =>
    if (n : Int) = limit then [] else x :: take_until_limit limit xs (n + 1)

/-- Embedding of `QueryMongoBackups.all_snapshots` (query-mongo-backups.py
lines 60-106): build a dict keyed by the start-time text, sort its items by
key in reverse, and cut the result off at `limit`. -/
def all_snapshots (snaps : List SnapRecord) (limit : Int) :
    List (String × DecodedSnapshot) :=
  let dict := snaps.foldl
    (fun d s => dict_insert s.start_time (decode_snapshot s) d) []
  let sorted_desc := (sort_by_key (fun p => p.1) dict).reverse
  take_until_limit limit sorted_desc 0

/-- Embedding of `MongoBackups.get_latest_block_device` (mongo-backups.py
lines 213-227): walk the directories under /dev (each given as its list of
file names); for every directory holding files that match the fnmatch pattern
`xvd*` (equivalently: names starting with "xvd"), sort them and remember the
last; the final remembered value is returned. -/
def get_latest_block_device (dirs : List (List String)) : Option String :=
  dirs.foldl
    (fun latest files =>
      match (sort_by_key (fun s => s)
          (files.filter (fun f => begins_with "xvd".data f.data))).getLast? with
      | none => latest
      | some m => some m)
    none

/-- The list `['xvda', ..., 'xvdz']` built from `string.ascii_lowercase` in
`get_next_free_block_device`. -/
def all_block_devices : List String :=
  "abcdefghijklmnopqrstuvwxyz".data.map (fun c => "xvd" ++ String.singleton c)

/-- External calls of mongo-backups.py that can raise a provider error. -/
inductive Step
  | placement | snap_waiter | create_volume | avail_waiter | attach_volume
  | rsync_cmd | create_snapshot | detach_volume | detach_waiter | delete_volume
  deriving DecidableEq, Repr

/-- Python exceptions relevant to the embedded control flow. -/
inductive PyErr
  | index_error | attribute_error | value_error | name_error
  | step_fail (s : Step)
  deriving DecidableEq, Repr

deriving instance DecidableEq for Except

/-- Embedding of `MongoBackups.get_next_free_block_device` (mongo-backups.py
lines 229-245).  `all_block_devices.index(latest_block_device)` raises
ValueError when no xvd* device exists (`latest_block_device` is then None,
which is not in the list); `all_block_devices[_index + 1]` raises IndexError
when the latest device is xvdz. -/
def get_next_free_block_device (dirs : List (List String)) :
    Except PyErr String :=
  match get_latest_block_device dirs with
  | none => .error .value_error
  | some m =>
    match all_block_devices.findIdx? (fun d => d == m) with
    | none => .error .value_error
    | some i =>
      match all_block_devices.get? (i + 1) with
      | none => .error .index_error
      | some d => .ok d

/-- Observable external effects of one backup run, in program order.  An event
is recorded when the corresponding call or command is issued, whether or not
it then succeeds. -/
inductive Event
  | create_volume | avail_wait | attach_volume | mkfs | mkdtemp | mount_volume
  | mongo_lock | lvcreate | mongo_unlock | mount_snapshot | rsync
  | umount_snapshot | umount_volume | lvremove | create_snapshot
  | detach_volume | detach_wait | delete_volume
  deriving DecidableEq, Repr

/-- The fields of the create_volume response that the embedding keeps. -/
structure CreatedVolume where
  size : Option Nat
  volume_type : String
  deriving DecidableEq, Repr

/-- Embedding of `MongoBackups.ebs_create_volume` (mongo-backups.py lines
247-272).  The method first resolves the availability zone through the
instance metadata and a describe call (the `placement` step).  When a
`snapshot_id` is given, the next executed statement is `self.logs(...)`; the
class defines a method `log` and a property `logs_client` but no attribute
`logs`, so that line raises AttributeError before the snapshot_completed
waiter runs and before any volume is created.  Without a snapshot id the
volume is created from the explicit size. -/
def ebs_create_volume (fail : Step → Bool) (size : Option Nat)
    (volume_type : String) (snapshot_id : Option String) :
    Except PyErr CreatedVolume × List Event :=
  if fail .placement then (.error (.step_fail .placement), [])
  else
    match snapshot_id with
    | some _ => (.error .attribute_error, [])
    | none =>
      if fail .create_volume then
        (.error (.step_fail .create_volume), [.create_volume])
      else (.ok ⟨size, volume_type⟩, [.create_volume])

/-- One possible outcome of the post-attach polling loop in `main`. -/
inductive LoopRes
  | fuel_out
  | unbound
  | bound (dev : Option String)
  deriving DecidableEq, Repr

/-- Embedding of the polling loop at mongo-backups.py lines 497-511:

    count = 0
    while count < args.wait_time:
        latest_block_device = self.get_latest_block_device()
        time.sleep(1)
        ...
        if last_block_device != latest_block_device:
            break

`count` is initialised to 0 and never incremented, so the guard is the
constant test `0 < wait_time`.  `cur` carries the current binding of the local
variable `latest_block_device` (`none` while the body has never run, in which
case the code after the loop raises NameError when it reads the variable);
`k` numbers the polls so the k-th result of `get_latest_block_device` can be
looked up in `obs`; `fuel` bounds how many iterations are unfolded, with
`fuel_out` meaning the loop was still running after that many iterations. -/
def attach_wait_loop (wait_time : Int) (obs : Nat → Option String)
    (baseline : Option String) :
    Nat → Nat → Option (Option String) → LoopRes
  | 0, _, _ => .fuel_out
  | fuel + 1, k, cur =>
    if (0 : Int) < wait_time then
      let latest := obs k
      if baseline ≠ latest then .bound latest
      else attach_wait_loop wait_time obs baseline fuel (k + 1) (some latest)
    else
      match cur with
      | none => .unbound
      | some d => .bound d

/-- One element of a volume's `Attachments` list. -/
structure Attachment where
  instance_id : String
  device : String
  deriving DecidableEq, Repr

/-- A volume as returned by `describe_volumes`, restricted to the fields
`main` reads. -/
structure Volume where
  attachments : List Attachment
  volume_type : String
  deriving DecidableEq, Repr

/-- The command-line arguments that influence the embedded control flow of
`main` (action is fixed to `backup`). -/
structure Args where
  seed_from_last_snapshot : Bool
  wait_time : Int
  mongo_lock : Bool

/-- The environment of one run of `main`: what the collaborators would answer.
`dev_dirs` is the /dev walk before the attach, `dev_dirs_at k` the walk seen
by the k-th poll of the post-attach loop, and `fail s` says whether external
call `s` raises a provider error. -/
structure Env where
  instance_id : String
  physical_block_devices : List String
  lvsize : Nat
  volumes : List Volume
  last_snapshot_id : Option String
  dev_dirs : List (List String)
  dev_dirs_at : Nat → List (List String)
  fail : Step → Bool

/-- How one invocation of `main` ends. -/
inductive MainResult
  | exited (code : Int)
  | raised (e : PyErr)
  | returned_none
  | diverged
  deriving DecidableEq, Repr

/-- The eligibility test applied to the first attachment of a volume
(mongo-backups.py lines 418-426): same instance id, and the attachment device
is among the volume group's physical block devices. -/
def head_eligible (env : Env) (v : Volume) : Bool :=
  match v.attachments with
  | [] => false
  | a :: _ =>
    a.instance_id == env.instance_id
      && env.physical_block_devices.contains a.device

/-- The backup branch of `main` after a volume has been selected and the
create_volume call issued (mongo-backups.py lines 460-659), from the
volume_available waiter down to `sys.exit(0)`.  `tr` is the trace accumulated
so far.  `subprocess.call` return codes are ignored by the source, so those
commands never raise; `subprocess.check_output` (rsync) raises on a nonzero
exit status. -/
def after_create (args : Args) (env : Env) (fuel : Nat) (tr : List Event) :
    MainResult × List Event :=
  let tr := tr ++ [.avail_wait]
  if env.fail .avail_waiter then (.raised (.step_fail .avail_waiter), tr)
  else
    let last_bd := get_latest_block_device env.dev_dirs
    match get_next_free_block_device env.dev_dirs with
    | .error e => (.raised e, tr)
    | .ok _attach_device =>
      let tr := tr ++ [.attach_volume]
      if env.fail .attach_volume then (.raised (.step_fail .attach_volume), tr)
      else
        match attach_wait_loop args.wait_time
            (fun k => get_latest_block_device (env.dev_dirs_at k))
            last_bd fuel 0 none with
        | .fuel_out => (.diverged, tr)
        | .unbound => (.raised .name_error, tr)
        | .bound _latest =>
          let tr := tr ++ [.mkfs, .mkdtemp, .mkdtemp, .mount_volume]
          let tr := if args.mongo_lock then tr ++ [.mongo_lock] else tr
          let tr := tr ++ [.lvcreate]
          let tr := if args.mongo_lock then tr ++ [.mongo_unlock] else tr
          let tr := tr ++ [.mount_snapshot, .rsync]
          if env.fail .rsync_cmd then (.raised (.step_fail .rsync_cmd), tr)
          else
            let tr := tr ++ [.umount_snapshot, .umount_volume, .lvremove,
              .create_snapshot]
            if env.fail .create_snapshot then
              (.raised (.step_fail .create_snapshot), tr)
            else
              let tr := tr ++ [.detach_volume]
              if env.fail .detach_volume then
                (.raised (.step_fail .detach_volume), tr)
              else
                let tr := tr ++ [.detach_wait]
                if env.fail .detach_waiter then
                  (.raised (.step_fail .detach_waiter), tr)
                else
                  let tr := tr ++ [.delete_volume]
                  if env.fail .delete_volume then
                    (.raised (.step_fail .delete_volume), tr)
                  else (.exited 0, tr)

/-- The volume scan of `main` (mongo-backups.py lines 416-459): for each
volume the first element of its Attachments list is read unconditionally
(IndexError when the list is empty); an eligible volume enters the backup
body, an ineligible one is skipped.  In the backup body, seeding first checks
`last_snapshot['snapshot_id']` and exits with status 2 when no snapshot
exists; otherwise the volume is created and control continues in
`after_create`. -/
def eligibility_loop (args : Args) (env : Env) (fuel : Nat) :
    List Volume → MainResult × List Event
  | [] => (.returned_none, [])
  | v :: rest =>
    match v.attachments with
    | [] => (.raised .index_error, [])
    | a :: _ =>
      if a.instance_id == env.instance_id
          && env.physical_block_devices.contains a.device then
        if args.seed_from_last_snapshot then
          match env.last_snapshot_id with
          | none => (.exited 2, [])
          | some sid =>
            match ebs_create_volume env.fail none v.volume_type (some sid) with
            | (.error e, tr) => (.raised e, tr)
            | (.ok _, tr) => after_create args env fuel tr
        else
          match ebs_create_volume env.fail (some env.lvsize)
              v.volume_type none with
          | (.error e, tr) => (.raised e, tr)
          | (.ok _, tr) => after_create args env fuel tr
      else eligibility_loop args env fuel rest

/-- Embedding of `main` for `--action backup` (mongo-backups.py lines
402-659); named `main_backup` because Lean reserves `main` for executables. -/
def main_backup (args : Args) (env : Env) (fuel : Nat) : MainResult × List Event :=
  eligibility_loop args env fuel env.volumes

/-- The exit status of the whole process.  `sys.exit(main())` turns a normal
return of None into status 0; `sys.exit(0)` and `sys.exit(2)` exit with those
statuses; an uncaught exception makes CPython exit with status 1; a diverging
run never exits. -/
def process_exit_code (r : MainResult) : Option Int :=
  match r with
  | .exited c => some c
  | .returned_none => some 0
  | .raised _ => some 1
  | .diverged => none

/-- Characters matched by the Python regex class `\s` on the ASCII text the
parser sees. -/
def py_is_space (c : Char) : Bool :=
  c == ' ' || c == '\t' || c == '\n' || c == '\r' || c == '\x0b' || c == '\x0c'

/-- Characters matched by the regex class `[a-z\s]` in the key group of
`capture_rsync_stats`. -/
def key_char (c : Char) : Bool := ('a' ≤ c && c ≤ 'z') || py_is_space c

/-- Characters matched by the value class of the regex
(`[0-9+|[0-9\.]` is one character class holding digits, '+', '|', '[' and
'.'). -/
def value_char (c : Char) : Bool :=
  ('0' ≤ c && c ≤ '9') || c == '+' || c == '|' || c == '[' || c == '.'

/-- The five alternatives of the leading word group
`(File|Number|Total|Literal|Matched)` of the statistics regex. -/
def stat_label_heads : List String := ["File", "Number", "Total", "Literal", "Matched"]

/-- If `cs` starts with the characters `p`, return what follows. -/
def drop_head? : List Char → List Char → Option (List Char)
  | [], cs => some cs
  | _ :: _, [] => none
  | p :: ps, c :: cs => if c = p then drop_head? ps cs else none

/-- Match the regex tail `[a-z\s]+:\s<value>+` after one of the five leading
words; returns the captured key (leading word plus the `[a-z\s]+` run) and the
captured value. -/
def match_after_head (head : String) (rest : List Char) :
    Option (String × String) :=
  let run := rest.takeWhile key_char
  let rest2 := rest.dropWhile key_char
  if run.isEmpty then none
  else
    match rest2 with
    | ':' :: c :: rest3 =>
      if py_is_space c then
        let v := rest3.takeWhile value_char
        if v.isEmpty then none else some (⟨head.data ++ run⟩, ⟨v⟩)
      else none
    | _ => none

/-- The per-line regex search of `capture_rsync_stats` (commas already
stripped from the line): the pattern is anchored at the line start by `^`, and
the leading word alternatives are tried in order. -/
def match_stat_line (cs : List Char) : Option (String × String) :=
  stat_label_heads.foldr
    (fun head acc =>
      match (drop_head? head.data cs).bind (match_after_head head) with
      | some r => some r
      | none => acc)
    none

/-- Lowercase one ASCII character, as `str.lower` does on ASCII input. -/
def py_lower (c : Char) : Char :=
  if 'A' ≤ c && c ≤ 'Z' then Char.ofNat (c.toNat + 32) else c

/-- The key transformation `_key.lower().replace(' ', '_')` of
`capture_rsync_stats`. -/
def stat_key_of_label (label : String) : String :=
  ⟨label.data.map (fun c => let c' := py_lower c; if c' = ' ' then '_' else c')⟩

/-- Split a character list on a separator character (used for the newline
split of `capture_rsync_stats` and by the claim-shape predicate below). -/
def split_on_char (sep : Char) : List Char → List (List Char)
  | [] => [[]]
  | c :: rest =>
    if c = sep then [] :: split_on_char sep rest
    else
      match split_on_char sep rest with
      | [] => [[c]]
      | g :: gs => (c :: g) :: gs

/-- The contribution of one output line to `stats['rsync_stats']`
(mongo-backups.py lines 384-398): commas are removed from the whole line
first, then the regex is searched; a match appends one tag. -/
def capture_line (line : String) : Option Tag :=
  match match_stat_line (line.data.filter (fun c => c ≠ ',')) with
  | none => none
  | some (label, v) => some ⟨"rsync_" ++ stat_key_of_label label, v⟩

/-- Embedding of `MongoBackups.capture_rsync_stats` (mongo-backups.py lines
377-399): split the rsync output on newlines and collect one tag per
recognized line; unrecognized lines contribute nothing. -/
def capture_rsync_stats (rsync_output : String) : List Tag :=
  ((split_on_char '\n' rsync_output.data).map (fun cs => String.mk cs)).filterMap
    capture_line

/-- Modelled from the claim's wording, for comparison with the source parser:
a line of the shape `<Label>: <number>[,<number>...]`, read as a nonempty
label of letters and spaces beginning with a letter, a colon, a single space,
and comma-separated nonempty digit groups filling the rest of the line. -/
def claim_shape_line (line : String) : Bool :=
  let cs := line.data
  let label := cs.takeWhile (fun c => c.isAlpha || c == ' ')
  match label.head? with
  | none => false
  | some c0 =>
    c0.isAlpha &&
      (match cs.dropWhile (fun c => c.isAlpha || c == ' ') with
       | ':' :: ' ' :: num =>
         !num.isEmpty &&
           (split_on_char ',' num).all (fun g => !g.isEmpty && g.all Char.isDigit)
       | _ => false)

/-- The alphabet-successor a device name is specified to advance to: the last
letter of the suffix bumped to the next letter. -/
def alphabet_successor (m : String) : String :=
  ⟨m.data.dropLast ++ [Char.ofNat ((m.data.getLastD 'a').toNat + 1)]⟩

/-- Everything the decoded record of one snapshot exposes, flattened to a list
of strings (used to state that a value was not recovered by decoding). -/
def decoded_values (d : DecodedSnapshot) : List String :=
  [d.description, d.progress, d.snapshot_id]
    ++ [d.date_started, d.date_finished, d.mongo_name, d.instance_id].filterMap id
    ++ d.rsync_stats.map Prod.fst ++ d.rsync_stats.map Prod.snd

/-- Arguments of a plain `--action backup` run: no seeding, the default
60-second wait, no mongo lock. -/
def args_plain : Args := ⟨false, 60, false⟩

/-- Arguments of a `--seed-from-last-snapshot` run. -/
def args_seed : Args := ⟨true, 60, false⟩

/-- A volume attached to this host (instance i-1) at /dev/xvdf. -/
def vol_eligible : Volume := ⟨[⟨"i-1", "/dev/xvdf"⟩], "gp2"⟩

/-- A volume attached to a different instance. -/
def vol_other_instance : Volume := ⟨[⟨"i-2", "/dev/xvdf"⟩], "gp2"⟩

/-- A volume attached to this host but at a device outside the volume group. -/
def vol_other_device : Volume := ⟨[⟨"i-1", "/dev/sdh"⟩], "gp2"⟩

/-- A live-tagged volume whose Attachments list is empty. -/
def vol_no_attachment : Volume := ⟨[], "gp2"⟩

/-- An environment in which every external call succeeds and exactly one
eligible volume exists: /dev holds xvda and xvdf before the attach, and xvdg
appears once the new volume is attached. -/
def env_success : Env :=
  { instance_id := "i-1"
    physical_block_devices := ["/dev/xvdf"]
    lvsize := 3
    volumes := [vol_eligible]
    last_snapshot_id := none
    dev_dirs := [["xvda", "xvdf"]]
    dev_dirs_at := fun _ => [["xvda", "xvdf", "xvdg"]]
    fail := fun _ => false }

/-- Like `env_success` but no volume passes the eligibility check. -/
def env_no_eligible : Env :=
  { env_success with volumes := [vol_other_instance, vol_other_device] }

/-- Like `env_success` but the attach_volume call raises a provider error. -/
def env_fail_attach : Env :=
  { env_success with fail := fun s => decide (s = .attach_volume) }

/-- Like `env_success` but the describe result also holds a volume with an
empty Attachments list, after the eligible one. -/
def env_empty_attach_last : Env :=
  { env_success with volumes := [vol_eligible, vol_no_attachment] }

/-- Like `env_success` but the volume with the empty Attachments list comes
before any eligible volume. -/
def env_empty_attach_first : Env :=
  { env_success with volumes := [vol_other_instance, vol_no_attachment] }

/-- Three tagged snapshots of one cluster with pairwise-distinct start times,
newest first in wall-clock terms but listed unordered. -/
def snaps_three : List SnapRecord :=
  [⟨"d", false, "100%", "snap-1", "2024-01-02T10:00:00+10:00",
     snapshot_tags "i-1" "m" "s1" "f1" []⟩,
   ⟨"d", false, "100%", "snap-2", "2024-01-03T10:00:00+10:00",
     snapshot_tags "i-1" "m" "s2" "f2" []⟩,
   ⟨"d", false, "100%", "snap-3", "2024-01-01T10:00:00+10:00",
     snapshot_tags "i-1" "m" "s3" "f3" []⟩]

/-- Reflexivity of the code-point order. -/
theorem chars_le_refl (l : List Char) : chars_le l l = true := by
  induction l with
  | nil => rfl
  | cons a as ih => simp [chars_le, ih]

/-- Totality of the code-point order. -/
theorem chars_le_total (a b : List Char) :
    chars_le a b = true ∨ chars_le b a = true := by
  induction a generalizing b with
  | nil => left; rfl
  | cons x xs ih =>
    cases b with
    | nil => right; rfl
    | cons y ys =>
      by_cases hxy : x = y
      · subst hxy
        simpa [chars_le] using ih ys
      · have hyx : ¬ y = x := fun h => hxy h.symm
        rcases Nat.lt_trichotomy x.toNat y.toNat with h | h | h
        · left; simp [chars_le, hxy, h]
        · exact absurd (Char.ext (UInt32.ext h)) hxy
        · right; simp [chars_le, hyx, h]

/-- Transitivity of the code-point order. -/
theorem chars_le_trans {a b c : List Char} (h1 : chars_le a b = true)
    (h2 : chars_le b c = true) : chars_le a c = true := by
  induction a generalizing b c with
  | nil => rfl
  | cons x xs ih =>
    cases b with
    | nil => simp [chars_le] at h1
    | cons y ys =>
      cases c with
      | nil => simp [chars_le] at h2
      | cons z zs =>
        by_cases hxy : x = y
        · subst hxy
          simp only [chars_le, if_pos rfl] at h1
          by_cases hxz : x = z
          · subst hxz
            simp only [chars_le, if_pos rfl] at h2 ⊢
            exact ih h1 h2
          · simp only [chars_le, if_neg hxz] at h2 ⊢
            exact h2
        · simp only [chars_le, if_neg hxy, decide_eq_true_eq] at h1
          by_cases hyz : y = z
          · subst hyz
            simp [chars_le, hxy, h1]
          · simp only [chars_le, if_neg hyz, decide_eq_true_eq] at h2
            have hxz : ¬ x = z := by
              intro h; subst h
              exact Nat.lt_irrefl _ (Nat.lt_trans h1 h2)
            simp [chars_le, hxz, Nat.lt_trans h1 h2]

/-- Antisymmetry of the code-point order. -/
theorem chars_le_antisymm {a b : List Char} (h1 : chars_le a b = true)
    (h2 : chars_le b a = true) : a = b := by
  induction a generalizing b with
  | nil =>
    cases b with
    | nil => rfl
    | cons y ys => simp [chars_le] at h2
  | cons x xs ih =>
    cases b with
    | nil => simp [chars_le] at h1
    | cons y ys =>
      by_cases hxy : x = y
      · subst hxy
        simp only [chars_le, if_pos rfl] at h1 h2
        rw [ih h1 h2]
      · have hyx : ¬ y = x := fun h => hxy h.symm
        simp only [chars_le, if_neg hxy, if_neg hyx, decide_eq_true_eq] at h1 h2
        exact absurd (Nat.lt_trans h1 h2) (Nat.lt_irrefl _)

/-- Reflexivity of `str_le`. -/
theorem str_le_refl (s : String) : str_le s s = true := chars_le_refl s.data

/-- Totality of `str_le`. -/
theorem str_le_total (a b : String) : str_le a b = true ∨ str_le b a = true :=
  chars_le_total a.data b.data

/-- Transitivity of `str_le`. -/
theorem str_le_trans {a b c : String} (h1 : str_le a b = true)
    (h2 : str_le b c = true) : str_le a c = true :=
  chars_le_trans h1 h2

/-- Antisymmetry of `str_le`. -/
theorem str_le_antisymm {a b : String} (h1 : str_le a b = true)
    (h2 : str_le b a = true) : a = b := by
  cases a with
  | mk da =>
    cases b with
    | mk db =>
      have : da = db := chars_le_antisymm h1 h2
      rw [this]

/-- Membership in an insertion step of the sort. -/
theorem mem_sort_insert {α : Type} (key : α → String) (x a : α) (l : List α) :
    x ∈ sort_insert key a l ↔ x = a ∨ x ∈ l := by
  induction l with
  | nil => simp [sort_insert]
  | cons y ys ih =>
    simp only [sort_insert]
    split
    · simp [List.mem_cons]
    · simp only [List.mem_cons, ih]
      tauto

/-- Membership is preserved by the sort. -/
theorem mem_sort_by_key {α : Type} (key : α → String) (x : α) (l : List α) :
    x ∈ sort_by_key key l ↔ x ∈ l := by
  induction l with
  | nil => simp [sort_by_key]
  | cons y ys ih =>
    simp [sort_by_key, mem_sort_insert, ih]

/-- Insertion preserves sortedness by the key. -/
theorem pairwise_sort_insert {α : Type} (key : α → String) (a : α) (l : List α)
    (h : l.Pairwise (fun u v => str_le (key u) (key v) = true)) :
    (sort_insert key a l).Pairwise (fun u v => str_le (key u) (key v) = true) := by
  induction l with
  | nil => simp [sort_insert]
  | cons y ys ih =>
    rcases List.pairwise_cons.mp h with ⟨hy, hys⟩
    simp only [sort_insert]
    split
    case isTrue hcase =>
      refine List.pairwise_cons.mpr ⟨?_, h⟩
      intro z hz
      rcases List.mem_cons.mp hz with rfl | hz'
      · exact hcase
      · exact str_le_trans hcase (hy z hz')
    case isFalse hcase =>
      refine List.pairwise_cons.mpr ⟨?_, ih hys⟩
      intro z hz
      rcases (mem_sort_insert key z a ys).mp hz with rfl | hz'
      · rcases str_le_total (key z) (key y) with hh | hh
        · exact absurd hh hcase
        · exact hh
      · exact hy z hz'

/-- The sort produces a list sorted by the key. -/
theorem pairwise_sort_by_key {α : Type} (key : α → String) (l : List α) :
    (sort_by_key key l).Pairwise (fun u v => str_le (key u) (key v) = true) := by
  induction l with
  | nil => simp [sort_by_key]
  | cons y ys ih => exact pairwise_sort_insert key y _ ih

/-- Length is preserved by insertion. -/
theorem length_sort_insert {α : Type} (key : α → String) (a : α) (l : List α) :
    (sort_insert key a l).length = l.length + 1 := by
  induction l with
  | nil => rfl
  | cons y ys ih =>
    simp only [sort_insert]
    split
    · rfl
    · simp [ih]

/-- Length is preserved by the sort. -/
theorem length_sort_by_key {α : Type} (key : α → String) (l : List α) :
    (sort_by_key key l).length = l.length := by
  induction l with
  | nil => rfl
  | cons y ys ih => simp [sort_by_key, length_sort_insert, ih]

/-- The last element of a sorted list is a greatest element. -/
theorem pairwise_getLast {α : Type} {R : α → α → Prop} :
    ∀ (l : List α) (m : α), l.Pairwise R → l.getLast? = some m →
      ∀ x ∈ l, x = m ∨ R x m := by
  intro l
  induction l with
  | nil => intro m _ h; simp at h
  | cons a l ih =>
    intro m hp hl x hx
    cases l with
    | nil =>
      simp only [List.getLast?_singleton, Option.some.injEq] at hl
      subst hl
      rcases List.mem_singleton.mp hx with rfl
      exact Or.inl rfl
    | cons b l' =>
      have hl' : (b :: l').getLast? = some m := by
        rwa [List.getLast?_cons_cons] at hl
      rcases List.mem_cons.mp hx with rfl | hx'
      · exact Or.inr ((List.pairwise_cons.mp hp).1 m (List.mem_of_mem_getLast? hl'))
      · exact ih m (List.pairwise_cons.mp hp).2 hl' x hx'

/-- A nonempty list sorted by `sort_by_key` ends with a maximum of the keys. -/
theorem sort_by_key_greatest {α : Type} (key : α → String) (l : List α)
    (hne : l ≠ []) :
    ∃ m, (sort_by_key key l).getLast? = some m ∧ m ∈ l ∧
      ∀ x ∈ l, str_le (key x) (key m) = true := by
  have hsne : sort_by_key key l ≠ [] := by
    intro h
    apply hne
    have := length_sort_by_key key l
    rw [h] at this
    exact List.length_eq_zero.mp this.symm
  obtain ⟨m, hm⟩ := Option.isSome_iff_exists.mp (List.getLast?_isSome.mpr hsne)
  refine ⟨m, hm, (mem_sort_by_key key m l).mp (List.mem_of_mem_getLast? hm), ?_⟩
  intro x hx
  have hx' : x ∈ sort_by_key key l := (mem_sort_by_key key x l).mpr hx
  rcases pairwise_getLast _ m (pairwise_sort_by_key key l) hm x hx' with rfl | h
  · exact str_le_refl _
  · exact h

/-- Every canonical device name matches the xvd* pattern. -/
theorem all_block_devices_start :
    ∀ f ∈ all_block_devices, begins_with "xvd".data f.data = true := by decide

/-- The canonical device list, written out. -/
theorem all_block_devices_eq :
    all_block_devices =
      ["xvda", "xvdb", "xvdc", "xvdd", "xvde", "xvdf", "xvdg", "xvdh", "xvdi",
       "xvdj", "xvdk", "xvdl", "xvdm", "xvdn", "xvdo", "xvdp", "xvdq", "xvdr",
       "xvds", "xvdt", "xvdu", "xvdv", "xvdw", "xvdx", "xvdy", "xvdz"] := by
  decide

/-- Every canonical device name is at most xvdz in the code-point order. -/
theorem all_block_devices_le_z :
    ∀ f ∈ all_block_devices, str_le f "xvdz" = true := by decide

/-- On a single /dev directory whose matching entries are exactly `files`,
`get_latest_block_device` returns the lexicographically greatest entry. -/
theorem get_latest_single (files : List String)
    (hx : ∀ f ∈ files, begins_with "xvd".data f.data = true) (hne : files ≠ []) :
    ∃ m, get_latest_block_device [files] = some m ∧ m ∈ files ∧
      ∀ x ∈ files, str_le x m = true := by
  have hfil : files.filter (fun f => begins_with "xvd".data f.data) = files :=
    List.filter_eq_self.mpr hx
  obtain ⟨m, hm, hmem, hmax⟩ := sort_by_key_greatest (fun s => s) files hne
  refine ⟨m, ?_, hmem, hmax⟩
  simp [get_latest_block_device, List.foldl, hfil, hm]

/-- Claim C3: over any set of existing device names drawn from the xvd-letter
naming convention, `get_next_free_block_device` returns the name whose suffix
is the alphabet successor of the lexicographically greatest existing name, and
fails (Python: an uncaught ValueError from `list.index`, resp. IndexError from
the list subscript — the spec's ExhaustedDeviceSpace condition) when no
matching device exists or when the greatest name is already xvdz. -/
theorem c3_next_free_device (files : List String)
    (h : ∀ f ∈ files, f ∈ all_block_devices) :
    (files = [] → get_next_free_block_device [files] = .error .value_error)
    ∧ (∀ m ∈ files, (∀ x ∈ files, str_le x m = true) → m ≠ "xvdz" →
        get_next_free_block_device [files] = .ok (alphabet_successor m))
    ∧ ("xvdz" ∈ files → get_next_free_block_device [files] = .error .index_error) := by
  refine ⟨?_, ?_, ?_⟩
  · rintro rfl
    decide
  · intro m hmem hmax hne_z
    obtain ⟨m0, hL, hmem0, hmax0⟩ := get_latest_single files
      (fun f hf => all_block_devices_start f (h f hf))
      (by rintro rfl; simp at hmem)
    have hmm : m0 = m := str_le_antisymm (hmax m0 hmem0) (hmax0 m hmem)
    subst hmm
    have hm_abd : m0 ∈ all_block_devices := h m0 hmem
    unfold get_next_free_block_device
    rw [hL]
    rw [all_block_devices_eq] at hm_abd
    fin_cases hm_abd <;> first | (exact absurd rfl hne_z) | decide
  · intro hz
    obtain ⟨m0, hL, hmem0, hmax0⟩ := get_latest_single files
      (fun f hf => all_block_devices_start f (h f hf))
      (by rintro rfl; simp at hz)
    have hmm : m0 = "xvdz" :=
      str_le_antisymm (all_block_devices_le_z m0 (h m0 hmem0)) (hmax0 _ hz)
    subst hmm
    unfold get_next_free_block_device
    rw [hL]
    decide

/-- Witness for C3: with /dev holding xvda and xvdf, the next free device is
xvdg, the successor of the greatest existing name. -/
theorem c3_next_free_device_witness :
    (∀ f ∈ (["xvda", "xvdf"] : List String), f ∈ all_block_devices)
    ∧ get_next_free_block_device [["xvda", "xvdf"]] = .ok "xvdg" := by
  refine ⟨by decide, ?_⟩
  have h := (c3_next_free_device ["xvda", "xvdf"] (by decide)).2.1 "xvdf"
    (by decide) (by decide) (by decide)
  have hs : alphabet_successor "xvdf" = "xvdg" := by decide
  rw [hs] at h
  exact h

/-- Claim C2 (code bug): when the observed latest device name never changes
from the pre-attach baseline, the confirmation loop never terminates, because
`count` is never incremented and the guard `count < wait_time` stays true
forever; here with wait_time = 5, after any number of iterations whatsoever
the loop is still running, so it is not bounded by wait_time polls. -/
theorem c2_attach_poll_loop_never_exits (b : Option String) :
    ∀ (fuel k : Nat) (cur : Option (Option String)),
      attach_wait_loop 5 (fun _ => b) b fuel k cur = .fuel_out := by
  intro fuel
  induction fuel with
  | zero => intro k cur; rfl
  | succ n ih =>
    intro k cur
    simp only [attach_wait_loop, ne_eq, not_true_eq_false, if_false]
    norm_num
    exact ih (k + 1) (some b)

/-- Claim C6 (code bug): `ebs_create_volume` called with a snapshot id raises
AttributeError (the source says `self.logs(...)`, but the class only defines
`log` and `logs_client`) before the snapshot_completed waiter runs and before
any create_volume call is issued — the returned trace is empty. -/
theorem c6_seeded_create_raises (fail : Step → Bool) (size : Option Nat)
    (volume_type : String) (sid : String) (h : fail .placement = false) :
    ebs_create_volume fail size volume_type (some sid) =
      (.error .attribute_error, []) := by
  simp [ebs_create_volume, h]

/-- Witness for C6 at the concrete snapshot id snap-123 with no provider
failures. -/
theorem c6_seeded_create_raises_witness :
    ((fun _ : Step => false) .placement = false)
    ∧ ebs_create_volume (fun _ => false) none "gp2" (some "snap-123") =
        (.error .attribute_error, []) :=
  ⟨rfl, c6_seeded_create_raises (fun _ => false) none "gp2" "snap-123" rfl⟩

/-- takeWhile and dropWhile of a list that satisfies the predicate up to a
first failing element. -/
theorem takeWhile_append_stop {p : Char → Bool} :
    ∀ (xs : List Char) (y : Char) (ys : List Char),
      (∀ c ∈ xs, p c = true) → p y = false →
      (xs ++ y :: ys).takeWhile p = xs ∧ (xs ++ y :: ys).dropWhile p = y :: ys := by
  intro xs
  induction xs with
  | nil =>
    intro y ys _ hy
    simp [List.takeWhile_cons, List.dropWhile_cons, hy]
  | cons x xs ih =>
    intro y ys hall hy
    have hx : p x = true := hall x (by simp)
    have := ih y ys (fun c hc => hall c (by simp [hc])) hy
    simp [List.takeWhile_cons, List.dropWhile_cons, hx, this.1, this.2]

/-- takeWhile of a list every element of which satisfies the predicate. -/
theorem takeWhile_all {p : Char → Bool} :
    ∀ (xs : List Char), (∀ c ∈ xs, p c = true) → xs.takeWhile p = xs := by
  intro xs
  induction xs with
  | nil => intro _; rfl
  | cons x xs ih =>
    intro hall
    have hx : p x = true := hall x (by simp)
    simp [List.takeWhile_cons, hx, ih (fun c hc => hall c (by simp [hc]))]

/-- Dropping a matched head from the list it heads. -/
theorem drop_head_append : ∀ (p r : List Char), drop_head? p (p ++ r) = some r := by
  intro p
  induction p with
  | nil => intro r; rfl
  | cons x xs ih => intro r; simp [drop_head?, ih]

/-- A list holding no separator splits to itself. -/
theorem split_on_char_of_not_mem (sep : Char) :
    ∀ (cs : List Char), (∀ c ∈ cs, c ≠ sep) → split_on_char sep cs = [cs] := by
  intro cs
  induction cs with
  | nil => intro _; rfl
  | cons c rest ih =>
    intro hall
    have hc : ¬ c = sep := hall c (by simp)
    simp only [split_on_char, if_neg hc, ih (fun d hd => hall d (by simp [hd]))]

/-- A digit is matched by the value class of the statistics regex. -/
theorem value_char_of_digit {c : Char} (h : c.isDigit = true) : value_char c = true := by
  have h' : ('0' ≤ c && c ≤ '9') = true := h
  simp only [Bool.and_eq_true, decide_eq_true_eq] at h'
  simp [value_char, h'.1, h'.2]

/-- A digit is not a newline. -/
theorem digit_ne_newline {c : Char} (h : c.isDigit = true) : c ≠ '\n' := by
  intro hc
  subst hc
  exact absurd h (by decide)

/-- The regex tail succeeds on a key run followed by a colon, one space and a
value run. -/
theorem match_after_head_ok (head : String) (restl v : List Char)
    (hkey : ∀ c ∈ restl, key_char c = true) (hre : restl.isEmpty = false)
    (hval : ∀ c ∈ v, value_char c = true) (hve : v.isEmpty = false) :
    match_after_head head (restl ++ (':' :: ' ' :: v)) =
      some (⟨head.data ++ restl⟩, ⟨v⟩) := by
  have hrun := takeWhile_append_stop restl ':' (' ' :: v) hkey (by decide)
  have hvrun := takeWhile_all (p := value_char) v hval
  simp only [match_after_head, hrun.1, hrun.2, hre, hvrun, hve,
    Bool.false_eq_true, if_false, py_is_space]
  simp

/-- The full statistics regex succeeds on a line formed from any of the five
leading words followed by a key run, a colon, one space and a value run. -/
theorem match_stat_line_heads (restl v : List Char)
    (hkey : ∀ c ∈ restl, key_char c = true) (hre : restl.isEmpty = false)
    (hval : ∀ c ∈ v, value_char c = true) (hve : v.isEmpty = false) :
    ∀ head ∈ stat_label_heads,
      match_stat_line (head.data ++ (restl ++ (':' :: ' ' :: v))) =
        some (⟨head.data ++ restl⟩, ⟨v⟩) := by
  intro head hh
  have hok := match_after_head_ok head restl v hkey hre hval hve
  fin_cases hh <;> simp [match_stat_line, stat_label_heads, drop_head?, hok]

/-- Claim C8 (amended): a summary line whose label starts with one of the five
words File, Number, Total, Literal or Matched, continued by a nonempty run of
lowercase letters and spaces, then a colon, a single space, and a number
written with digits and commas, yields exactly one statistic: its key is
`rsync_` followed by the lower-cased, underscore-joined label, and its value
is the number with commas stripped.  (Lines of the general claimed shape whose
label does not start with one of those five words are not recognized — see the
counterexample.) -/
theorem c8_stats_line_capture (head : String) (hh : head ∈ stat_label_heads)
    (restl num : List Char) (hr : restl ≠ [])
    (hrc : ∀ c ∈ restl, ('a' ≤ c ∧ c ≤ 'z') ∨ c = ' ')
    (hn : num.filter (fun c => c ≠ ',') ≠ [])
    (hnd : ∀ c ∈ num, c.isDigit = true ∨ c = ',') :
    capture_line ⟨head.data ++ (restl ++ (':' :: ' ' :: num))⟩ =
      some ⟨"rsync_" ++ stat_key_of_label ⟨head.data ++ restl⟩,
        ⟨num.filter (fun c => c ≠ ',')⟩⟩
    ∧ capture_rsync_stats ⟨head.data ++ (restl ++ (':' :: ' ' :: num))⟩ =
      [⟨"rsync_" ++ stat_key_of_label ⟨head.data ++ restl⟩,
        ⟨num.filter (fun c => c ≠ ',')⟩⟩] := by
  have hkey : ∀ c ∈ restl, key_char c = true := by
    intro c hc
    rcases hrc c hc with ⟨h1, h2⟩ | rfl
    · simp [key_char, h1, h2]
    · decide
  have hfr : restl.filter (fun c => c ≠ ',') = restl := by
    apply List.filter_eq_self.mpr
    intro a ha
    rcases hrc a ha with ⟨h1, _⟩ | rfl
    · simp only [ne_eq, decide_not, Bool.not_eq_eq_eq_not, Bool.not_true,
        decide_eq_false_iff_not]
      intro hcc
      subst hcc
      exact absurd h1 (by decide)
    · decide
  have hhead_f : head.data.filter (fun c => c ≠ ',') = head.data := by
    fin_cases hh <;> decide
  have hcol : ((':' :: ' ' :: num).filter (fun c => c ≠ ',')) =
      ':' :: ' ' :: num.filter (fun c => c ≠ ',') := by
    rw [List.filter_cons_of_pos (by decide), List.filter_cons_of_pos (by decide)]
  have hline : ((head.data ++ (restl ++ (':' :: ' ' :: num))).filter
        (fun c => c ≠ ','))
      = head.data ++ (restl ++ (':' :: ' ' :: num.filter (fun c => c ≠ ','))) := by
    rw [List.filter_append, List.filter_append, hhead_f, hfr, hcol]
  have hval : ∀ c ∈ num.filter (fun c => c ≠ ','), value_char c = true := by
    intro c hc
    rcases List.mem_filter.mp hc with ⟨hcm, hcne⟩
    rcases hnd c hcm with h | rfl
    · exact value_char_of_digit h
    · simp at hcne
  have hre : restl.isEmpty = false := by
    cases restl with
    | nil => exact absurd rfl hr
    | cons a l => rfl
  have hve : (num.filter (fun c => c ≠ ',')).isEmpty = false := by
    cases hcase : num.filter (fun c => c ≠ ',') with
    | nil => exact absurd hcase hn
    | cons a l => rfl
  have h1 : capture_line ⟨head.data ++ (restl ++ (':' :: ' ' :: num))⟩ =
      some ⟨"rsync_" ++ stat_key_of_label ⟨head.data ++ restl⟩,
        ⟨num.filter (fun c => c ≠ ',')⟩⟩ := by
    unfold capture_line
    rw [show (⟨head.data ++ (restl ++ (':' :: ' ' :: num))⟩ : String).data =
      head.data ++ (restl ++ (':' :: ' ' :: num)) from rfl, hline,
      match_stat_line_heads restl (num.filter (fun c => c ≠ ','))
        hkey hre hval hve head hh]
  refine ⟨h1, ?_⟩
  have hhead_nl : ∀ c ∈ head.data, c ≠ '\n' := by
    fin_cases hh <;> decide
  have hnl : ∀ c ∈ head.data ++ (restl ++ (':' :: ' ' :: num)), c ≠ '\n' := by
    intro c hc
    rcases List.mem_append.mp hc with h | h
    · exact hhead_nl c h
    · rcases List.mem_append.mp h with h' | h'
      · rcases hrc c h' with ⟨ha, _⟩ | rfl
        · intro hcc; subst hcc; exact absurd ha (by decide)
        · decide
      · rcases List.mem_cons.mp h' with rfl | h''
        · decide
        · rcases List.mem_cons.mp h'' with rfl | h'''
          · decide
          · rcases hnd c h''' with hd | rfl
            · exact digit_ne_newline hd
            · decide
  unfold capture_rsync_stats
  rw [show (⟨head.data ++ (restl ++ (':' :: ' ' :: num))⟩ : String).data =
    head.data ++ (restl ++ (':' :: ' ' :: num)) from rfl,
    split_on_char_of_not_mem '\n' _ hnl]
  simp [h1]

/-- Witness for C8 at the claim's own example: "Number of files: 1,234" yields
the single statistic rsync_number_of_files = 1234. -/
theorem c8_stats_line_capture_witness :
    ("Number" ∈ stat_label_heads)
    ∧ capture_line "Number of files: 1,234" =
        some ⟨"rsync_number_of_files", "1234"⟩
    ∧ capture_rsync_stats "Number of files: 1,234" =
        [⟨"rsync_number_of_files", "1234"⟩] := by
  have h := c8_stats_line_capture "Number" (by decide) (" of files").data ("1,234").data
    (by decide) (by decide) (by decide) (by decide)
  have e1 : (⟨"Number".data ++ ((" of files").data ++
      (':' :: ' ' :: ("1,234").data))⟩ : String) = "Number of files: 1,234" := by
    decide
  have e2 : ("rsync_" ++ stat_key_of_label ⟨"Number".data ++ (" of files").data⟩ :
      String) = "rsync_number_of_files" := by decide
  have e3 : (⟨("1,234").data.filter (fun c => c ≠ ',')⟩ : String) = "1234" := by
    decide
  rw [e1, e2, e3] at h
  exact ⟨by decide, h.1, h.2⟩

/-- Counterexample for C8 as stated: "Deleted files: 3" has the claimed shape
`<Label>: <number>`, yet the parser produces no entry, because the regex only
recognizes labels starting with File, Number, Total, Literal or Matched. -/
theorem c8_shape_line_unrecognized_cex :
    claim_shape_line "Deleted files: 3" = true
    ∧ capture_line "Deleted files: 3" = none
    ∧ capture_rsync_stats "Deleted files: 3" = [] := by decide

/-- Inserting a key not bound in the dict appends at the end. -/
theorem dict_insert_fresh {β : Type} (k : String) (v : β) :
    ∀ (d : List (String × β)), (∀ p ∈ d, p.1 ≠ k) →
      dict_insert k v d = d ++ [(k, v)] := by
  intro d
  induction d with
  | nil => intro _; rfl
  | cons p rest ih =>
    intro h
    have hp : ¬ p.1 = k := h p (by simp)
    cases p with
    | mk k' v' =>
      simp only [dict_insert, if_neg hp, List.cons_append, List.cons.injEq,
        true_and]
      exact ih (fun q hq => h q (by simp [hq]))

/-- Folding dict insertions of tags with pairwise-distinct keys over a dict
that binds none of them appends the tags in order. -/
theorem dict_fold_tags :
    ∀ (stats : List Tag) (d : List (String × String)),
      (stats.map Tag.key).Nodup →
      (∀ t ∈ stats, ∀ p ∈ d, p.1 ≠ t.key) →
      stats.foldl (fun d t => dict_insert t.key t.value d) d =
        d ++ stats.map (fun t => (t.key, t.value)) := by
  intro stats
  induction stats with
  | nil => intro d _ _; simp
  | cons t ts ih =>
    intro d hnd hfree
    have hnd2 : (t.key :: ts.map Tag.key).Nodup := by simpa using hnd
    obtain ⟨hhead, hnd'⟩ := List.nodup_cons.mp hnd2
    have hins : dict_insert t.key t.value d = d ++ [(t.key, t.value)] :=
      dict_insert_fresh t.key t.value d (fun p hp => hfree t (by simp) p hp)
    simp only [List.foldl_cons, hins]
    rw [ih (d ++ [(t.key, t.value)]) hnd' ?_]
    · simp
    · intro u hu p hp
      rcases List.mem_append.mp hp with h | h
      · exact hfree u (by simp [hu]) p h
      · rcases List.mem_singleton.mp h with rfl
        intro hk
        have : t.key ∈ ts.map Tag.key := by
          rw [show t.key = u.key from hk]
          exact List.mem_map_of_mem Tag.key hu
        exact hhead this

/-- Claim C4 (amended): encoding a run's identity fields and statistics as
snapshot tags and decoding them through the body of `all_snapshots` recovers
the instance id, the cluster name, both timestamps, and every statistic
key/value pair unchanged, including the empty-statistics case; the Name,
Description, run-marker and tool-version tags are encoded but are not decoded
into the record (see the counterexample for the tool version). -/
theorem c4_roundtrip_partial (iid mn ds df : String) (stats : List Tag)
    (hpre : ∀ t ∈ stats, begins_with "rsync_".data t.key.data = true)
    (hnd : (stats.map Tag.key).Nodup)
    (desc prog sid st : String) (enc : Bool) :
    (decode_snapshot ⟨desc, enc, prog, sid, st,
        snapshot_tags iid mn ds df stats⟩).instance_id = some iid
    ∧ (decode_snapshot ⟨desc, enc, prog, sid, st,
        snapshot_tags iid mn ds df stats⟩).mongo_name = some mn
    ∧ (decode_snapshot ⟨desc, enc, prog, sid, st,
        snapshot_tags iid mn ds df stats⟩).date_started = some ds
    ∧ (decode_snapshot ⟨desc, enc, prog, sid, st,
        snapshot_tags iid mn ds df stats⟩).date_finished = some df
    ∧ (decode_snapshot ⟨desc, enc, prog, sid, st,
        snapshot_tags iid mn ds df stats⟩).rsync_stats =
        stats.map (fun t => (t.key, t.value)) := by
  refine ⟨rfl, rfl, rfl, rfl, ?_⟩
  show ((snapshot_tags iid mn ds df stats).filter
      (fun t => begins_with "rsync_".data t.key.data)).foldl
      (fun d t => dict_insert t.key t.value d) [] =
    stats.map (fun t => (t.key, t.value))
  have e1 : (snapshot_tags iid mn ds df stats).filter
      (fun t => begins_with "rsync_".data t.key.data) =
      stats.filter (fun t => begins_with "rsync_".data t.key.data) := rfl
  have e2 : stats.filter (fun t => begins_with "rsync_".data t.key.data) =
      stats := List.filter_eq_self.mpr hpre
  rw [e1, e2, dict_fold_tags stats [] hnd (by intro t _ p hp; simp at hp)]
  simp

/-- Witness for C4 at a concrete record with one statistic. -/
theorem c4_roundtrip_partial_witness :
    (∀ t ∈ [(⟨"rsync_number_of_files", "1234"⟩ : Tag)],
        begins_with "rsync_".data t.key.data = true)
    ∧ (decode_snapshot ⟨"d", false, "100%", "snap-1", "t0",
        snapshot_tags "i-1" "m" "d1" "d2"
          [⟨"rsync_number_of_files", "1234"⟩]⟩).instance_id = some "i-1"
    ∧ (decode_snapshot ⟨"d", false, "100%", "snap-1", "t0",
        snapshot_tags "i-1" "m" "d1" "d2"
          [⟨"rsync_number_of_files", "1234"⟩]⟩).rsync_stats =
        [("rsync_number_of_files", "1234")] := by
  have h := c4_roundtrip_partial "i-1" "m" "d1" "d2"
    [⟨"rsync_number_of_files", "1234"⟩] (by decide) (by decide)
    "d" "100%" "snap-1" "t0" false
  exact ⟨by decide, h.1, h.2.2.2.2⟩

/-- Counterexample for C4 as stated: the tool-version identity tag
MongoBackupsVersion = 0.1 is encoded on every snapshot, but no component of
the decoded record carries its value — decode does not recover every identity
field. -/
theorem c4_version_not_recovered_cex :
    ((⟨"MongoBackupsVersion", mongo_backups_version⟩ : Tag) ∈
      snapshot_tags "i-1" "m" "d1" "d2" [])
    ∧ mongo_backups_version ∉ decoded_values (decode_snapshot
        ⟨"MongoBackups-m-i-1", false, "100%", "snap-1", "t0",
          snapshot_tags "i-1" "m" "d1" "d2" []⟩) := by decide

/-- Exit-code and trace facts about the backup tail: the only exit it issues
is `sys.exit(0)`, and a 0-exit implies the detach call, the detach waiter and
the delete call all appear in the trace (and the trace it was entered with is
preserved). -/
theorem after_create_cases (args : Args) (env : Env) (fuel : Nat)
    (tr : List Event) (r : MainResult × List Event)
    (hr : after_create args env fuel tr = r) :
    (∀ c, r.1 = .exited c → c = 0)
    ∧ (r.1 = .exited 0 →
        (∀ e ∈ tr, e ∈ r.2) ∧ Event.detach_volume ∈ r.2 ∧
        Event.detach_wait ∈ r.2 ∧ Event.delete_volume ∈ r.2) := by
  simp only [after_create] at hr
  repeat' split at hr
  all_goals subst hr
  all_goals refine ⟨fun c h => ?_, fun h0 => ?_⟩
  all_goals try (simp at h; done)
  all_goals try (simp at h0; done)
  all_goals
    first
    | (simp at h; omega)
    | exact ⟨fun e he => by simp [he], by simp, by simp, by simp⟩

/-- A successful create_volume call contributes exactly the create event. -/
theorem ebs_create_volume_ok_trace (fail : Step → Bool) (size : Option Nat)
    (volume_type : String) (snapshot_id : Option String)
    (r : CreatedVolume) (tr : List Event)
    (h : ebs_create_volume fail size volume_type snapshot_id = (.ok r, tr)) :
    tr = [.create_volume] := by
  simp only [ebs_create_volume] at h
  repeat' split at h
  all_goals simp_all

/-- Exit-code and cleanup facts about the volume scan: the only exit codes
are 0 and 2, code 2 only on the seeding path, and a 0-exit implies the volume
was created, detached, waited on and deleted. -/
theorem eligibility_loop_cases (args : Args) (env : Env) (fuel : Nat) :
    ∀ (vs : List Volume) (r : MainResult × List Event),
      eligibility_loop args env fuel vs = r →
      (∀ c, r.1 = .exited c → c = 0 ∨ c = 2)
      ∧ (args.seed_from_last_snapshot = false → ∀ c, r.1 = .exited c → c = 0)
      ∧ (r.1 = .exited 0 → Event.create_volume ∈ r.2 ∧
          Event.detach_volume ∈ r.2 ∧ Event.detach_wait ∈ r.2 ∧
          Event.delete_volume ∈ r.2) := by
  intro vs
  induction vs with
  | nil =>
    intro r hr
    simp only [eligibility_loop] at hr
    subst hr
    exact ⟨fun c h => by simp at h, fun _ c h => by simp at h,
      fun h => by simp at h⟩
  | cons v rest ih =>
    intro r hr
    simp only [eligibility_loop] at hr
    cases hatt : v.attachments with
    | nil =>
      simp only [hatt] at hr
      subst hr
      exact ⟨fun c h => by simp at h, fun _ c h => by simp at h,
        fun h => by simp at h⟩
    | cons a rest_att =>
      simp only [hatt] at hr
      by_cases helig : (a.instance_id == env.instance_id
          && env.physical_block_devices.contains a.device) = true
      · rw [if_pos helig] at hr
        by_cases hseed : args.seed_from_last_snapshot = true
        · rw [if_pos hseed] at hr
          cases hsnap : env.last_snapshot_id with
          | none =>
            simp only [hsnap] at hr
            subst hr
            refine ⟨fun c h => ?_, fun hs c h => ?_, fun h => ?_⟩
            · right; simp at h; omega
            · rw [hs] at hseed; cases hseed
            · simp at h
          | some sid =>
            simp only [hsnap] at hr
            cases hcv : ebs_create_volume env.fail none v.volume_type (some sid) with
            | mk res tr' =>
              cases res with
              | error e =>
                simp only [hcv] at hr
                subst hr
                exact ⟨fun c h => by simp at h, fun _ c h => by simp at h,
                  fun h => by simp at h⟩
              | ok cv =>
                simp only [hcv] at hr
                have htr := ebs_create_volume_ok_trace _ _ _ _ _ _ hcv
                subst htr
                have hac := after_create_cases args env fuel [.create_volume] r hr
                exact ⟨fun c h => Or.inl (hac.1 c h), fun _ c h => hac.1 c h,
                  fun h => ⟨(hac.2 h).1 .create_volume (by simp), (hac.2 h).2.1,
                    (hac.2 h).2.2.1, (hac.2 h).2.2.2⟩⟩
        · rw [if_neg hseed] at hr
          cases hcv : ebs_create_volume env.fail (some env.lvsize)
              v.volume_type none with
          | mk res tr' =>
            cases res with
            | error e =>
              simp only [hcv] at hr
              subst hr
              exact ⟨fun c h => by simp at h, fun _ c h => by simp at h,
                fun h => by simp at h⟩
            | ok cv =>
              simp only [hcv] at hr
              have htr := ebs_create_volume_ok_trace _ _ _ _ _ _ hcv
              subst htr
              have hac := after_create_cases args env fuel [.create_volume] r hr
              exact ⟨fun c h => Or.inl (hac.1 c h), fun _ c h => hac.1 c h,
                fun h => ⟨(hac.2 h).1 .create_volume (by simp), (hac.2 h).2.1,
                  (hac.2 h).2.2.1, (hac.2 h).2.2.2⟩⟩
      · rw [if_neg helig] at hr
        exact ih r hr

/-- A scan over volumes that all have an attachment but fail the eligibility
test falls off the loop with no external effects. -/
theorem eligibility_loop_no_match (args : Args) (env : Env) (fuel : Nat) :
    ∀ vs : List Volume,
      (∀ v ∈ vs, v.attachments ≠ [] ∧ head_eligible env v = false) →
      eligibility_loop args env fuel vs = (.returned_none, []) := by
  intro vs
  induction vs with
  | nil => intro _; simp [eligibility_loop]
  | cons v rest ih =>
    intro h
    obtain ⟨hne, hinelig⟩ := h v (by simp)
    simp only [eligibility_loop]
    cases hatt : v.attachments with
    | nil => exact absurd hatt hne
    | cons a rest_att =>
      have hcond : (a.instance_id == env.instance_id
          && env.physical_block_devices.contains a.device) = false := by
        have h' := hinelig
        simp only [head_eligible, hatt] at h'
        exact h'
      simp only [hatt]
      rw [if_neg (by rw [hcond]; simp)]
      exact ih (fun u hu => h u (by simp [hu]))

/-- A scan that reaches a volume with an empty Attachments list (after only
ineligible attached volumes) raises IndexError at the `Attachments[0]` read,
with no external effects. -/
theorem eligibility_loop_empty_attachment (args : Args) (env : Env) (fuel : Nat) :
    ∀ (pre : List Volume) (rest : List Volume) (v : Volume),
      v.attachments = [] →
      (∀ u ∈ pre, u.attachments ≠ [] ∧ head_eligible env u = false) →
      eligibility_loop args env fuel (pre ++ v :: rest) =
        (.raised .index_error, []) := by
  intro pre
  induction pre with
  | nil =>
    intro rest v hv _
    simp only [List.nil_append, eligibility_loop]
    simp [hv]
  | cons u pre' ih =>
    intro rest v hv h
    obtain ⟨hne, hinelig⟩ := h u (by simp)
    simp only [List.cons_append, eligibility_loop]
    cases hatt : u.attachments with
    | nil => exact absurd hatt hne
    | cons a rest_att =>
      have hcond : (a.instance_id == env.instance_id
          && env.physical_block_devices.contains a.device) = false := by
        have h' := hinelig
        simp only [head_eligible, hatt] at h'
        exact h'
      simp only [hatt]
      rw [if_neg (by rw [hcond]; simp)]
      exact ih rest v hv (fun w hw => h w (by simp [hw]))

/-- Claim C7: when every live-tagged volume is attached to a different
instance id or at a device outside the volume group's physical device set,
the orchestrator selects no volume, creates no destination volume, and the
run ends in the no-op outcome (main returns None, process exit 0). -/
theorem c7_ineligible_not_selected (args : Args) (env : Env) (fuel : Nat)
    (h : ∀ v ∈ env.volumes, v.attachments ≠ [] ∧ head_eligible env v = false) :
    main_backup args env fuel = (.returned_none, [])
    ∧ Event.create_volume ∉ (main_backup args env fuel).2
    ∧ process_exit_code (main_backup args env fuel).1 = some 0 := by
  have hm : main_backup args env fuel = (.returned_none, []) :=
    eligibility_loop_no_match args env fuel env.volumes h
  refine ⟨hm, ?_, ?_⟩
  · rw [hm]; simp
  · rw [hm]; rfl

/-- Witness for C7: one volume on another instance and one on a foreign
device; the run is a no-op. -/
theorem c7_ineligible_not_selected_witness :
    (∀ v ∈ env_no_eligible.volumes, v.attachments ≠ [] ∧
      head_eligible env_no_eligible v = false)
    ∧ main_backup args_plain env_no_eligible 10 = (.returned_none, [])
    ∧ process_exit_code (main_backup args_plain env_no_eligible 10).1 = some 0 := by
  have h := c7_ineligible_not_selected args_plain env_no_eligible 10 (by decide)
  exact ⟨by decide, h.1, h.2.2⟩

/-- Claim C10 (amended): when the describe-volumes result reaches a
live-tagged volume with an empty Attachments list — that is, no volume before
it is selected — the run fails with IndexError at the unconditional
`Attachments[0]` read instead of skipping the volume; the eligibility check
is total only over volumes with at least one attachment. -/
theorem c10_empty_attachment_crash (args : Args) (env : Env) (fuel : Nat)
    (pre rest : List Volume) (v : Volume)
    (hvol : env.volumes = pre ++ v :: rest)
    (hv : v.attachments = [])
    (hpre : ∀ u ∈ pre, u.attachments ≠ [] ∧ head_eligible env u = false) :
    main_backup args env fuel = (.raised .index_error, []) := by
  unfold main_backup
  rw [hvol]
  exact eligibility_loop_empty_attachment args env fuel pre rest v hv hpre

/-- Witness for C10: an ineligible volume followed by one with no
attachments; the run raises IndexError. -/
theorem c10_empty_attachment_crash_witness :
    env_empty_attach_first.volumes = [vol_other_instance] ++ vol_no_attachment :: []
    ∧ vol_no_attachment.attachments = []
    ∧ main_backup args_plain env_empty_attach_first 10 =
        (.raised .index_error, []) := by
  refine ⟨by decide, by decide, ?_⟩
  exact c10_empty_attachment_crash args_plain env_empty_attach_first 10
    [vol_other_instance] [] vol_no_attachment (by decide) (by decide) (by decide)

/-- Counterexample for C10 as stated: a describe result that contains an
empty-attachment volume after an eligible one does not fail at the read — the
eligible volume is selected first and the run exits 0, so the universally
quantified claim is false. -/
theorem c10_crash_not_total_cex :
    vol_no_attachment ∈ env_empty_attach_last.volumes
    ∧ vol_no_attachment.attachments = []
    ∧ (main_backup args_plain env_empty_attach_last 10).1 = .exited 0 := by decide

/-- Claim C1 (amended): on the successful terminal path the destination
volume is created, detached, waited on until available and deleted before the
process exits 0.  Failure paths after creation perform no cleanup — see the
counterexample. -/
theorem c1_cleanup_only_on_success (args : Args) (env : Env) (fuel : Nat)
    (h : (main_backup args env fuel).1 = .exited 0) :
    Event.create_volume ∈ (main_backup args env fuel).2
    ∧ Event.detach_volume ∈ (main_backup args env fuel).2
    ∧ Event.detach_wait ∈ (main_backup args env fuel).2
    ∧ Event.delete_volume ∈ (main_backup args env fuel).2 := by
  have hc := eligibility_loop_cases args env fuel env.volumes
    (main_backup args env fuel) rfl
  exact hc.2.2 h

/-- Witness for C1: the all-success run exits 0 with detach, wait and
delete in its trace. -/
theorem c1_cleanup_only_on_success_witness :
    (main_backup args_plain env_success 10).1 = .exited 0
    ∧ Event.detach_volume ∈ (main_backup args_plain env_success 10).2
    ∧ Event.detach_wait ∈ (main_backup args_plain env_success 10).2
    ∧ Event.delete_volume ∈ (main_backup args_plain env_success 10).2 := by
  have h := c1_cleanup_only_on_success args_plain env_success 10 (by decide)
  exact ⟨by decide, h.2.1, h.2.2.1, h.2.2.2⟩

/-- Counterexample for C1 as stated: when the attach_volume call raises
after the destination volume has been created, the exception propagates out
of main with no detach and no delete attempted — the volume is orphaned, so
not every terminal path attempts cleanup. -/
theorem c1_no_cleanup_on_failure_cex :
    (main_backup args_plain env_fail_attach 10).1 =
      .raised (.step_fail .attach_volume)
    ∧ Event.create_volume ∈ (main_backup args_plain env_fail_attach 10).2
    ∧ Event.detach_volume ∉ (main_backup args_plain env_fail_attach 10).2
    ∧ Event.delete_volume ∉ (main_backup args_plain env_fail_attach 10).2 := by
  decide

/-- Claim C5 (amended): the run exits 0 on success, 2 when seeding is
requested but no prior snapshot exists (and only then), and "no eligible
volume" is not distinguished: main falls off its loop returning None and
`sys.exit(main())` exits 0, the same code as success. -/
theorem c5_exit_codes (args : Args) (env : Env) (fuel : Nat) :
    ((main_backup args env fuel).1 = .returned_none →
      process_exit_code (main_backup args env fuel).1 = some 0)
    ∧ (∀ c, (main_backup args env fuel).1 = .exited c → c = 0 ∨ c = 2)
    ∧ (args.seed_from_last_snapshot = false →
        ∀ c, (main_backup args env fuel).1 = .exited c → c = 0) := by
  have hc := eligibility_loop_cases args env fuel env.volumes
    (main_backup args env fuel) rfl
  refine ⟨fun h => ?_, hc.1, hc.2.1⟩
  rw [h]
  rfl

/-- Witness for C5: the no-eligible-volume run returns None and the process
exits 0. -/
theorem c5_exit_codes_witness :
    (main_backup args_plain env_no_eligible 10).1 = .returned_none
    ∧ process_exit_code (main_backup args_plain env_no_eligible 10).1 = some 0 :=
  ⟨by decide, (c5_exit_codes args_plain env_no_eligible 10).1 (by decide)⟩

/-- Counterexample for C5 as stated: success and "no eligible volume found"
share exit code 0, so the three outcomes are not pairwise distinct; only the
seed-without-snapshot outcome (code 2) is distinguished. -/
theorem c5_exit_code_collision_cex :
    process_exit_code (main_backup args_plain env_success 10).1 = some 0
    ∧ process_exit_code (main_backup args_plain env_no_eligible 10).1 = some 0
    ∧ process_exit_code (main_backup args_seed env_success 10).1 = some 2 := by
  decide

/-- The truncation loop equals `List.take` for a nonnegative limit. -/
theorem take_until_limit_eq_take {α : Type} (limit : Int) :
    ∀ (l : List α) (n : Nat), (n : Int) ≤ limit →
      take_until_limit limit l n = l.take ((limit - (n : Int)).toNat) := by
  intro l
  induction l with
  | nil => intro n _; simp [take_until_limit]
  | cons x xs ih =>
    intro n hn
    simp only [take_until_limit]
    split
    case isTrue hcase =>
      have h0 : ((limit - (n : Int)).toNat) = 0 := by omega
      simp [h0]
    case isFalse hcase =>
      have hlt : (n : Int) < limit := lt_of_le_of_ne hn (fun h => hcase h)
      have h1 : ((limit - ((n : Int))).toNat) =
          ((limit - (((n + 1 : Nat)) : Int)).toNat) + 1 := by push_cast; omega
      rw [ih (n + 1) (by push_cast; omega), h1]
      rfl

/-- Folding dict insertions with pairwise-distinct keys over a dict binding
none of them appends the entries in order. -/
theorem dict_fold_generic {α β : Type} (k : α → String) (f : α → β) :
    ∀ (xs : List α) (d : List (String × β)),
      (xs.map k).Nodup →
      (∀ x ∈ xs, ∀ p ∈ d, p.1 ≠ k x) →
      xs.foldl (fun d x => dict_insert (k x) (f x) d) d =
        d ++ xs.map (fun x => (k x, f x)) := by
  intro xs
  induction xs with
  | nil => intro d _ _; simp
  | cons x xs ih =>
    intro d hnd hfree
    have hnd2 : (k x :: xs.map k).Nodup := by simpa using hnd
    obtain ⟨hhead, hnd'⟩ := List.nodup_cons.mp hnd2
    have hins : dict_insert (k x) (f x) d = d ++ [(k x, f x)] :=
      dict_insert_fresh (k x) (f x) d (fun p hp => hfree x (by simp) p hp)
    simp only [List.foldl_cons, hins]
    rw [ih (d ++ [(k x, f x)]) hnd' ?_]
    · simp
    · intro u hu p hp
      rcases List.mem_append.mp hp with h | h
      · exact hfree u (by simp [hu]) p h
      · rcases List.mem_singleton.mp h with rfl
        intro hk
        have : k x ∈ xs.map k := by
          rw [show k x = k u from hk]
          exact List.mem_map_of_mem k hu
        exact hhead this

/-- Claim C9 (amended for nonnegative limits): for every set of tagged
snapshots with pairwise-distinct start times and every nonnegative limit,
`all_snapshots` returns at most `limit` decoded records, ordered by the
start-time text descending; every returned record is the decoding of one of
the snapshots, and every snapshot left out is no more recent than any record
returned (so the result is exactly the most recent ones). -/
theorem c9_recent_snapshots (snaps : List SnapRecord) (limit : Int)
    (h0 : 0 ≤ limit) (hnd : (snaps.map SnapRecord.start_time).Nodup) :
    ((all_snapshots snaps limit).length : Int) ≤ limit
    ∧ (all_snapshots snaps limit).Pairwise
        (fun p q => str_le q.1 p.1 = true)
    ∧ (∀ p ∈ all_snapshots snaps limit,
        ∃ s ∈ snaps, p = (s.start_time, decode_snapshot s))
    ∧ (∀ s ∈ snaps,
        (s.start_time, decode_snapshot s) ∉ all_snapshots snaps limit →
        ∀ p ∈ all_snapshots snaps limit, str_le s.start_time p.1 = true) := by
  have hdict : snaps.foldl
      (fun d s => dict_insert s.start_time (decode_snapshot s) d)
      ([] : List (String × DecodedSnapshot)) =
      snaps.map (fun s => (s.start_time, decode_snapshot s)) := by
    have h := dict_fold_generic SnapRecord.start_time decode_snapshot snaps []
      hnd (by intro x _ p hp; simp at hp)
    simpa using h
  have hall : all_snapshots snaps limit =
      ((sort_by_key (fun p => p.1)
        (snaps.map (fun s => (s.start_time, decode_snapshot s)))).reverse).take
        limit.toNat := by
    unfold all_snapshots
    rw [hdict, take_until_limit_eq_take limit _ 0 (by exact_mod_cast h0)]
    norm_num
  have hs := pairwise_sort_by_key (fun p : String × DecodedSnapshot => p.1)
    (snaps.map (fun s => (s.start_time, decode_snapshot s)))
  have hrev : ((sort_by_key (fun p => p.1)
      (snaps.map (fun s => (s.start_time, decode_snapshot s)))).reverse).Pairwise
      (fun p q : String × DecodedSnapshot => str_le q.1 p.1 = true) := by
    rw [List.pairwise_reverse]
    exact hs
  refine ⟨?_, ?_, ?_, ?_⟩
  · rw [hall]
    calc ((((sort_by_key (fun p => p.1)
        (snaps.map (fun s => (s.start_time, decode_snapshot s)))).reverse).take
        limit.toNat).length : Int)
        ≤ (limit.toNat : Int) := by exact_mod_cast List.length_take_le _ _
      _ = limit := by omega
  · rw [hall]
    exact hrev.sublist (List.take_sublist _ _)
  · intro p hp
    rw [hall] at hp
    have hp' : p ∈ (sort_by_key (fun p => p.1)
        (snaps.map (fun s => (s.start_time, decode_snapshot s)))).reverse :=
      (List.take_sublist _ _).mem hp
    rw [List.mem_reverse, mem_sort_by_key] at hp'
    rcases List.mem_map.mp hp' with ⟨s, hs', rfl⟩
    exact ⟨s, hs', rfl⟩
  · intro s hsnap hnotin p hp
    have hpair_rev : (s.start_time, decode_snapshot s) ∈
        (sort_by_key (fun p => p.1)
          (snaps.map (fun s => (s.start_time, decode_snapshot s)))).reverse := by
      rw [List.mem_reverse, mem_sort_by_key]
      exact List.mem_map_of_mem _ hsnap
    have hpair_drop : (s.start_time, decode_snapshot s) ∈
        ((sort_by_key (fun p => p.1)
          (snaps.map (fun s => (s.start_time, decode_snapshot s)))).reverse).drop
          limit.toNat := by
      rcases (List.mem_append.mp (by
        rw [List.take_append_drop]; exact hpair_rev :
          (s.start_time, decode_snapshot s) ∈
            ((sort_by_key (fun p => p.1)
              (snaps.map (fun s => (s.start_time, decode_snapshot s)))).reverse).take
              limit.toNat ++
            ((sort_by_key (fun p => p.1)
              (snaps.map (fun s => (s.start_time, decode_snapshot s)))).reverse).drop
              limit.toNat)) with h | h
      · rw [hall] at hnotin
        exact absurd h hnotin
      · exact h
    have hpw : (((sort_by_key (fun p => p.1)
        (snaps.map (fun s => (s.start_time, decode_snapshot s)))).reverse).take
          limit.toNat ++
        ((sort_by_key (fun p => p.1)
          (snaps.map (fun s => (s.start_time, decode_snapshot s)))).reverse).drop
          limit.toNat).Pairwise
        (fun p q : String × DecodedSnapshot => str_le q.1 p.1 = true) := by
      rw [List.take_append_drop]
      exact hrev
    have hcross := (List.pairwise_append.mp hpw).2.2 p (by rw [hall] at hp; exact hp)
      (s.start_time, decode_snapshot s) hpair_drop
    exact hcross

/-- Witness for C9: three snapshots with distinct start times and limit 2
return exactly the two most recent, newest first. -/
theorem c9_recent_snapshots_witness :
    ((0 : Int) ≤ 2 ∧ (snaps_three.map SnapRecord.start_time).Nodup)
    ∧ ((all_snapshots snaps_three 2).length : Int) ≤ 2
    ∧ (all_snapshots snaps_three 2).map Prod.fst =
        ["2024-01-03T10:00:00+10:00", "2024-01-02T10:00:00+10:00"] := by
  have h := c9_recent_snapshots snaps_three 2 (by decide) (by decide)
  exact ⟨⟨by decide, by decide⟩, h.1, by decide⟩

/-- Counterexample for C9 as stated: with limit = -1 (argparse accepts any
int) the stop test `len(od) == limit` never fires, all three records are
returned, and "at most limit" fails. -/
theorem c9_negative_limit_cex :
    (all_snapshots snaps_three (-1)).length = 3
    ∧ ¬ (((all_snapshots snaps_three (-1)).length : Int) ≤ -1) := by decide
